import Mathlib

/-!
Verification of the Uni-post storage and consistency core (server.js).

The JavaScript server persists users, communities and posts as JSON blobs
in a versioned remote store, with a secondary index document for lookup.
This file gives a shallow embedding of the storage-layer functions the
spec describes (vote handling, comment-tree insertion, index self-heal,
dual-path resolution, retention cleanup, compare-and-swap writes,
community deletion, password stripping) and proves the stated properties.

JavaScript objects are modelled as association lists with string keys;
JavaScript numbers used as counters are modelled as Int; fetches that can
return null are modelled with Option.
-/

namespace UniPost

/-! ## Association-list helpers (JavaScript object semantics)

A JavaScript object has unique keys; `delete obj[k]` removes the binding,
`obj[k] = v` overwrites or appends, `obj[k]` reads the binding if any. -/

/-- Read a key from an object, as `obj[k]` (undefined becomes none). -/
def lookupKey {α : Type} (k : String) : List (String × α) → Option α
  | [] => none
  | kv :: rest => if kv.1 = k then some kv.2 else lookupKey k rest

/-- Remove a key from an object, as `delete obj[k]`. -/
def eraseKey {α : Type} (k : String) (l : List (String × α)) : List (String × α) :=
  l.filter (fun kv => kv.1 ≠ k)

/-- Write a key into an object, as `obj[k] = v`. -/
def setKey {α : Type} (k : String) (v : α) : List (String × α) → List (String × α)
  | [] => [(k, v)]
  | kv :: rest => if kv.1 = k then (k, v) :: rest else kv :: setKey k v rest

theorem lookupKey_eq_none_iff {α : Type} (k : String) (l : List (String × α)) :
    lookupKey k l = none ↔ ∀ kv ∈ l, kv.1 ≠ k := by
  induction l with
  | nil => simp [lookupKey]
  | cons kv rest ih =>
    by_cases h : kv.1 = k <;> simp [lookupKey, h, ih]

theorem lookupKey_eraseKey_self {α : Type} (k : String) (l : List (String × α)) :
    lookupKey k (eraseKey k l) = none := by
  rw [lookupKey_eq_none_iff]
  intro kv hkv
  simpa using (List.mem_filter.mp hkv).2

theorem lookupKey_eraseKey_ne {α : Type} (k k' : String) (l : List (String × α))
    (h : k' ≠ k) : lookupKey k' (eraseKey k l) = lookupKey k' l := by
  induction l with
  | nil => rfl
  | cons kv rest ih =>
    by_cases h1 : kv.1 = k
    · have h2 : kv.1 ≠ k' := fun hh => h (by rw [← hh, h1])
      have e1 : eraseKey k (kv :: rest) = eraseKey k rest := by
        simp [eraseKey, h1]
      rw [e1, ih]
      simp [lookupKey, h2]
    · have e1 : eraseKey k (kv :: rest) = kv :: eraseKey k rest := by
        simp [eraseKey, h1]
      rw [e1]
      by_cases h2 : kv.1 = k'
      · simp [lookupKey, h2]
      · simp [lookupKey, h2, ih]

theorem mem_eraseKey {α : Type} (k : String) (kv : String × α) (l : List (String × α)) :
    kv ∈ eraseKey k l ↔ kv ∈ l ∧ kv.1 ≠ k := by
  simp [eraseKey, List.mem_filter]

theorem lookupKey_setKey_ne {α : Type} (k k' : String) (v : α) (l : List (String × α))
    (h : k' ≠ k) : lookupKey k' (setKey k v l) = lookupKey k' l := by
  induction l with
  | nil => simp [setKey, lookupKey, Ne.symm h]
  | cons kv rest ih =>
    by_cases h1 : kv.1 = k
    · have h2 : kv.1 ≠ k' := fun hh => h (by rw [← hh, h1])
      simp [setKey, lookupKey, h1, h2, Ne.symm h]
    · by_cases h2 : kv.1 = k' <;> simp [setKey, lookupKey, h1, h2, h, ih]

theorem lookupKey_of_mem {α : Type} (k : String) (l : List (String × α)) (v : α)
    (h : (k, v) ∈ l) : ∃ w, lookupKey k l = some w := by
  induction l with
  | nil => simp at h
  | cons kv rest ih =>
    by_cases h1 : kv.1 = k
    · exact ⟨kv.2, by simp [lookupKey, h1]⟩
    · rcases List.mem_cons.mp h with h2 | h2
      · exact absurd (by rw [← h2]) h1
      · simpa [lookupKey, h1] using ih h2

/-! ## Comments

A comment document as built by POST /api/posts/:postId/comments:
id, content, author, parentId, createdAt, upvotes, downvotes, score, replies. -/

inductive Comment : Type where
  | mk (id : String) (content : String) (author : String) (parentId : Option String)
       (createdAt : String) (upvotes : Int) (downvotes : Int) (score : Int)
       (replies : List Comment) : Comment

def Comment.id : Comment → String
  | .mk i _ _ _ _ _ _ _ _ => i

def Comment.replies : Comment → List Comment
  | .mk _ _ _ _ _ _ _ _ r => r

/-! ## Posts

A post document as built by POST /api/r/:community/posts. -/

structure Post where
  id : String
  slug : String
  title : String
  content : String
  author : String
  community : String
  createdAt : Int
  upvotes : Int
  downvotes : Int
  score : Int
  comments : List Comment
  commentCount : Int
  voters : List (String × Int)

/-- Initial post document of the create-post route: upvotes 1, downvotes 0,
score 1, no comments, the author self-upvoted in voters. -/
def freshPost (id slug title content author community : String) (createdAt : Int) : Post :=
  { id := id, slug := slug, title := title, content := content, author := author,
    community := community, createdAt := createdAt,
    upvotes := 1, downvotes := 0, score := 1,
    comments := [], commentCount := 0, voters := [(author, 1)] }

/-! ## Vote handler

POST /api/posts/:postId/vote, the part that rewrites the post document:
previousVote = voters[username] or 0; decrement the counter matching the
previous vote, increment the counter matching the new vote, record the
vote, recompute score = upvotes - downvotes. -/

def vote (p : Post) (username : String) (v : Int) : Post :=
  let previousVote := (lookupKey username p.voters).getD 0
  let up1 := if previousVote = 1 then p.upvotes - 1 else p.upvotes
  let dn1 := if previousVote = -1 then p.downvotes - 1 else p.downvotes
  let up2 := if v = 1 then up1 + 1 else up1
  let dn2 := if v = -1 then dn1 + 1 else dn1
  { p with upvotes := up2, downvotes := dn2,
           voters := setKey username v p.voters,
           score := up2 - dn2 }

/-- Apply a sequence of vote calls (username, value) in order. -/
def voteSeq (p : Post) (calls : List (String × Int)) : Post :=
  calls.foldl (fun q c => vote q c.1 c.2) p

theorem vote_score_eq (p : Post) (u : String) (v : Int) :
    (vote p u v).score = (vote p u v).upvotes - (vote p u v).downvotes := by
  simp [vote]

theorem vote_voters_eq (p : Post) (u : String) (v : Int) :
    lookupKey u (vote p u v).voters = some v := by
  show lookupKey u (setKey u v p.voters) = some v
  induction p.voters with
  | nil => simp [setKey, lookupKey]
  | cons kv rest ih =>
    by_cases h : kv.1 = u <;> simp [setKey, lookupKey, h, ih]

/-- CLAIM C1: after every vote call on a post — for every prior vote state of
the user (encoded in the voters map), every preceding sequence of vote calls,
every user and every vote value — the written post document satisfies
score = upvotes - downvotes, and the vote is recorded in voters. -/
theorem vote_score_invariant (p : Post) (calls : List (String × Int)) (u : String) (v : Int) :
    (vote (voteSeq p calls) u v).score
        = (vote (voteSeq p calls) u v).upvotes - (vote (voteSeq p calls) u v).downvotes
      ∧ lookupKey u (vote (voteSeq p calls) u v).voters = some v :=
  ⟨vote_score_eq (voteSeq p calls) u v, vote_voters_eq (voteSeq p calls) u v⟩

/-- COUNTEREXAMPLE to CLAIM C2: on the freshly created post (upvotes 1,
downvotes 0, score 1, voters with the author at 1), the author voting -1 and
then -1 again does NOT yield upvotes 1, downvotes 0, score 1: the second
identical call is idempotent and the counts stay at upvotes 0, downvotes 1,
score -1. -/
theorem fresh_double_downvote_not_restored :
    ¬ ((vote (vote (freshPost "p1" "hello_world" "Hello World" "" "alice" "gaming" 0)
          "alice" (-1)) "alice" (-1)).upvotes = 1
        ∧ (vote (vote (freshPost "p1" "hello_world" "Hello World" "" "alice" "gaming" 0)
          "alice" (-1)) "alice" (-1)).downvotes = 0
        ∧ (vote (vote (freshPost "p1" "hello_world" "Hello World" "" "alice" "gaming" 0)
          "alice" (-1)) "alice" (-1)).score = 1) := by
  decide

/-- CLAIM C2 (amended): on the freshly created post the author voting -1
yields upvotes 0, downvotes 1, score -1; the author voting -1 a second time
is idempotent and leaves upvotes 0, downvotes 1, score -1 (not the initial
upvotes 1, downvotes 0, score 1). -/
theorem fresh_double_downvote_counts :
    ((vote (freshPost "p1" "hello_world" "Hello World" "" "alice" "gaming" 0)
        "alice" (-1)).upvotes = 0
      ∧ (vote (freshPost "p1" "hello_world" "Hello World" "" "alice" "gaming" 0)
        "alice" (-1)).downvotes = 1
      ∧ (vote (freshPost "p1" "hello_world" "Hello World" "" "alice" "gaming" 0)
        "alice" (-1)).score = -1)
    ∧ ((vote (vote (freshPost "p1" "hello_world" "Hello World" "" "alice" "gaming" 0)
        "alice" (-1)) "alice" (-1)).upvotes = 0
      ∧ (vote (vote (freshPost "p1" "hello_world" "Hello World" "" "alice" "gaming" 0)
        "alice" (-1)) "alice" (-1)).downvotes = 1
      ∧ (vote (vote (freshPost "p1" "hello_world" "Hello World" "" "alice" "gaming" 0)
        "alice" (-1)) "alice" (-1)).score = -1) := by
  decide

/-! ## Comment insertion

POST /api/posts/:postId/comments: a new comment node starts with upvotes 1,
downvotes 0, score 1 and no replies. With a truthy parentId the handler runs
the recursive addReply search (depth 0 at the top-level list, guard
depth > MAX_NESTING_DEPTH at each call); on success the node is pushed onto
the replies of the first node found with the parent id. The in-place
mutation of the JavaScript version is modelled by returning the rewritten
forest; none plays the role of the false return value. -/

def MAX_NESTING_DEPTH : Nat := 10

@[irreducible] def addReply (parentId : String) (c : Comment) (depth : Nat) :
    List Comment → Option (List Comment)
  | [] => none
  | Comment.mk i co au pa cr up dn sc replies :: rest =>
    if depth > MAX_NESTING_DEPTH then none
    else if i = parentId then
      some (Comment.mk i co au pa cr up dn sc (replies ++ [c]) :: rest)
    else if ¬ replies.isEmpty then
      match addReply parentId c (depth + 1) replies with
      | some rs => some (Comment.mk i co au pa cr up dn sc rs :: rest)
      | none =>
        match addReply parentId c depth rest with
        | some rest2 => some (Comment.mk i co au pa cr up dn sc replies :: rest2)
        | none => none
    else
      match addReply parentId c depth rest with
      | some rest2 => some (Comment.mk i co au pa cr up dn sc replies :: rest2)
      | none => none

/-- Specification-side depth-first search: does some node of the forest carry
the given id at depth at most maxD, where the top-level list passed in sits
at the given depth? No pruning is performed; the depth bound is part of the
searched property itself. -/
def hasIdAtDepthLE (pid : String) (maxD : Nat) (depth : Nat) : List Comment → Bool
  | [] => false
  | Comment.mk i _ _ _ _ _ _ _ replies :: rest =>
    (decide (depth ≤ maxD) && decide (i = pid))
      || hasIdAtDepthLE pid maxD (depth + 1) replies
      || hasIdAtDepthLE pid maxD depth rest

theorem hasIdAtDepthLE_eq_false_of_gt (pid : String) (maxD : Nat) :
    ∀ (depth : Nat) (l : List Comment), maxD < depth →
      hasIdAtDepthLE pid maxD depth l = false := by
  intro depth l
  induction depth, l using hasIdAtDepthLE.induct pid maxD with
  | case1 depth => intro h; simp [hasIdAtDepthLE]
  | case2 depth i co au pa cr up dn sc replies rest ih1 ih2 =>
    intro h
    simp [hasIdAtDepthLE, ih1 (Nat.lt_succ_of_lt h), ih2 h, Nat.not_le.mpr h]

/-- Success of the pruned source search coincides with the unpruned
specification search bounded by MAX_NESTING_DEPTH, at every starting depth. -/
theorem addReply_isSome_eq (pid : String) (c : Comment) :
    ∀ (depth : Nat) (l : List Comment),
      (addReply pid c depth l).isSome = hasIdAtDepthLE pid MAX_NESTING_DEPTH depth l := by
  intro depth l
  induction depth, l using hasIdAtDepthLE.induct pid MAX_NESTING_DEPTH with
  | case1 depth => simp [addReply, hasIdAtDepthLE]
  | case2 depth i co au pa cr up dn sc replies rest ih1 ih2 =>
    by_cases hd : depth > MAX_NESTING_DEPTH
    · have h1 : addReply pid c depth (Comment.mk i co au pa cr up dn sc replies :: rest)
          = none := by
        simp [addReply, hd]
      rw [h1, hasIdAtDepthLE_eq_false_of_gt pid MAX_NESTING_DEPTH depth _ hd]
      rfl
    · have hle : depth ≤ MAX_NESTING_DEPTH := Nat.not_lt.mp hd
      by_cases hi : i = pid
      · simp [addReply, hasIdAtDepthLE, hd, hi, hle]
      · simp only [hasIdAtDepthLE]
        rw [← ih1, ← ih2]
        by_cases he : replies.isEmpty
        · have h0 : replies = [] := by simpa using he
          subst h0
          cases hr : addReply pid c depth rest with
          | none => simp [addReply, hd, hi, hr]
          | some rest2 => simp [addReply, hd, hi, hr]
        · cases hq : addReply pid c (depth + 1) replies with
          | none =>
            cases hr : addReply pid c depth rest with
            | none => simp [addReply, hd, hi, he, hq, hr]
            | some rest2 => simp [addReply, hd, hi, he, hq, hr]
          | some rs => simp [addReply, hd, hi, he, hq]

/-- Comment node as constructed by the handler: upvotes 1, downvotes 0,
score 1, empty replies. -/
def newComment (commentId content author : String) (parentId : Option String)
    (createdAt : String) : Comment :=
  Comment.mk commentId content author parentId createdAt 1 0 1 []

/-- Truthiness of the parentId value in `if (parentId)`: null, undefined and
the empty string are falsy in JavaScript. -/
def strTruthy : Option String → Bool
  | none => false
  | some s => decide (s ≠ "")

/-- Comment-insertion part of POST /api/posts/:postId/comments, acting on the
post document. Returns none when the handler answers 404 (parent comment not
found or max nesting depth exceeded) without writing anything. -/
def addComment (p : Post) (c : Comment) (parentId : Option String) : Option Post :=
  if strTruthy parentId then
    match addReply (parentId.getD "") c 0 p.comments with
    | some forest => some { p with comments := forest, commentCount := p.commentCount + 1 }
    | none => none
  else
    some { p with comments := p.comments ++ [c], commentCount := p.commentCount + 1 }

/-- Stored post after the handler runs: unchanged when insertion fails. -/
def addCommentResult (p : Post) (c : Comment) (parentId : Option String) : Post :=
  match addComment p c parentId with
  | some q => q
  | none => p

/-- Run a list of insertion requests in order; returns the final post and the
number of successful insertions. -/
def runComments (p : Post) : List (Comment × Option String) → Post × Nat
  | [] => (p, 0)
  | (c, pid) :: rest =>
    match addComment p c pid with
    | some q => ((runComments q rest).1, (runComments q rest).2 + 1)
    | none => runComments p rest

/-- Linear chain of comments continued by a tail forest: each id becomes a
node whose sole child list is the chain of the remaining ids, ending in the
given tail, so the node carrying the k-th id sits at depth k. -/
def chainOnto (tail : List Comment) : List String → List Comment
  | [] => tail
  | i :: rest => [Comment.mk i "" "" none "" 1 0 1 (chainOnto tail rest)]

/-- Linear chain of comments ending in a leaf. -/
def chainOf (ids : List String) : List Comment :=
  chainOnto [] ids

/-- Post whose forest is a chain with leaf parent at depth exactly 10. -/
def chainPost10 : Post :=
  { freshPost "p1" "s" "t" "" "alice" "gaming" 0 with
    comments := chainOf ["d0", "d1", "d2", "d3", "d4", "d5", "d6", "d7", "d8", "d9", "d10"] }

/-- Post whose forest is a chain with leaf parent at depth exactly 11. -/
def chainPost11 : Post :=
  { freshPost "p1" "s" "t" "" "alice" "gaming" 0 with
    comments := chainOf ["d0", "d1", "d2", "d3", "d4", "d5", "d6", "d7", "d8", "d9", "d10", "d11"] }

/-- First comment of the list at the given depth along the first-child path. -/
def firstAtDepth : Nat → List Comment → Option Comment
  | _, [] => none
  | 0, c :: _ => some c
  | n + 1, c :: _ => firstAtDepth n c.replies

theorem addReply_chainOnto_found (pid : String) (c : Comment) :
    ∀ (ids : List String) (depth : Nat), pid ∉ ids →
      depth + ids.length ≤ MAX_NESTING_DEPTH →
      addReply pid c depth (chainOnto [] (ids ++ [pid]))
        = some (chainOnto [c] (ids ++ [pid])) := by
  intro ids
  induction ids with
  | nil =>
    intro depth hmem hlen
    have hd : ¬ depth > MAX_NESTING_DEPTH := Nat.not_lt.mpr (by simpa using hlen)
    simp [chainOnto, addReply, hd]
  | cons i rest ih =>
    intro depth hmem hlen
    have hi : i ≠ pid := fun hh => hmem (by simp [hh])
    have hrest : pid ∉ rest := fun hh => hmem (List.mem_cons_of_mem _ hh)
    have hd : ¬ depth > MAX_NESTING_DEPTH := by
      simp only [MAX_NESTING_DEPTH, List.length_cons] at hlen ⊢
      omega
    have hih := ih (depth + 1) hrest (by
      simp only [MAX_NESTING_DEPTH, List.length_cons] at hlen ⊢
      omega)
    have hne : (chainOnto [] (rest ++ [pid])).isEmpty = false := by
      cases rest <;> simp [chainOnto]
    simp [chainOnto, addReply, hd, hi, hne, hih]

theorem addReply_chainOnto_too_deep (pid : String) (c : Comment) :
    ∀ (ids : List String) (depth : Nat), pid ∉ ids →
      MAX_NESTING_DEPTH < depth + ids.length →
      addReply pid c depth (chainOnto [] (ids ++ [pid])) = none := by
  intro ids
  induction ids with
  | nil =>
    intro depth hmem hlen
    have hd : depth > MAX_NESTING_DEPTH := by simpa using hlen
    simp [chainOnto, addReply, hd]
  | cons i rest ih =>
    intro depth hmem hlen
    have hi : i ≠ pid := fun hh => hmem (by simp [hh])
    have hrest : pid ∉ rest := fun hh => hmem (List.mem_cons_of_mem _ hh)
    by_cases hd : depth > MAX_NESTING_DEPTH
    · simp [chainOnto, addReply, hd]
    · have hih := ih (depth + 1) hrest (by
        simp only [MAX_NESTING_DEPTH, List.length_cons] at hlen ⊢
        omega)
      have hne : (chainOnto [] (rest ++ [pid])).isEmpty = false := by
        cases rest <;> simp [chainOnto]
      simp [chainOnto, addReply, hd, hi, hne, hih]

/-- COUNTEREXAMPLE to CLAIM C4: parentId = "" is non-null, and no node of the
(empty) forest has id "" at any depth, yet insertion succeeds: JavaScript
treats the empty string as falsy in `if (parentId)` and appends the comment
at top level instead of failing with ParentNotFoundOrTooDeep. -/
theorem addComment_empty_string_parent_succeeds :
    (addComment (freshPost "p1" "s" "t" "" "alice" "gaming" 0)
        (newComment "c1" "hi" "bob" (some "") "t0") (some "")).isSome = true
      ∧ hasIdAtDepthLE "" MAX_NESTING_DEPTH 0
          (freshPost "p1" "s" "t" "" "alice" "gaming" 0).comments = false := by
  constructor
  · rfl
  · simp [hasIdAtDepthLE, freshPost]

/-- CLAIM C4 (amended): for a non-null, non-empty parentId, insertion succeeds
exactly when the depth-first search finds a node with that id at depth at most
10 (top level at depth 0); moreover inserting under a leaf parent at depth
exactly 10 succeeds and places the new node below it at depth 11, while
inserting under a leaf parent at depth 11 fails. -/
theorem addComment_parent_depth_bound :
    (∀ (p : Post) (c : Comment) (pid : String), pid ≠ "" →
      (addComment p c (some pid)).isSome
        = hasIdAtDepthLE pid MAX_NESTING_DEPTH 0 p.comments)
    ∧ ((addComment chainPost10
        (newComment "c1" "hi" "bob" (some "d10") "t0") (some "d10")).map
          (fun q => (firstAtDepth 11 q.comments).map Comment.id)
        = some (some "c1"))
    ∧ (addComment chainPost11
        (newComment "c1" "hi" "bob" (some "d11") "t0") (some "d11") = none) := by
  refine ⟨?_, ?_, ?_⟩
  · intro p c pid hpid
    have ht : strTruthy (some pid) = true := by simp [strTruthy, hpid]
    rw [← addReply_isSome_eq pid c 0 p.comments]
    simp only [addComment, ht, if_true, Option.getD_some]
    cases hq : addReply pid c 0 p.comments with
    | none => simp [hq]
    | some forest => simp [hq]
  · have hfound2 : addReply "d10" (newComment "c1" "hi" "bob" (some "d10") "t0") 0
        chainPost10.comments
        = some (chainOnto [newComment "c1" "hi" "bob" (some "d10") "t0"]
            (["d0", "d1", "d2", "d3", "d4", "d5", "d6", "d7", "d8", "d9"] ++ ["d10"])) := by
      rw [show chainPost10.comments
          = chainOnto []
              (["d0", "d1", "d2", "d3", "d4", "d5", "d6", "d7", "d8", "d9"] ++ ["d10"])
        from rfl]
      exact addReply_chainOnto_found "d10"
        (newComment "c1" "hi" "bob" (some "d10") "t0")
        ["d0", "d1", "d2", "d3", "d4", "d5", "d6", "d7", "d8", "d9"] 0
        (by decide) (by decide)
    unfold addComment
    rw [show strTruthy (some "d10") = true from rfl]
    rw [if_pos rfl]
    rw [show ((some "d10" : Option String)).getD "" = "d10" from rfl]
    rw [hfound2]
    rfl
  · have hnone2 : addReply "d11" (newComment "c1" "hi" "bob" (some "d11") "t0") 0
        chainPost11.comments = none := by
      rw [show chainPost11.comments
          = chainOnto []
              (["d0", "d1", "d2", "d3", "d4", "d5", "d6", "d7", "d8", "d9", "d10"] ++ ["d11"])
        from rfl]
      exact addReply_chainOnto_too_deep "d11"
        (newComment "c1" "hi" "bob" (some "d11") "t0")
        ["d0", "d1", "d2", "d3", "d4", "d5", "d6", "d7", "d8", "d9", "d10"] 0
        (by decide) (by decide)
    unfold addComment
    rw [show strTruthy (some "d11") = true from rfl]
    rw [if_pos rfl]
    rw [show ((some "d11" : Option String)).getD "" = "d11" from rfl]
    rw [hnone2]

/-- Witness for the amended C4 theorem at a concrete input: the depth-10
insertion on the chain post, with the non-empty parent id "d10". -/
theorem addComment_parent_depth_bound_witness :
    (addComment chainPost10
      (newComment "c1" "hi" "bob" (some "d10") "t0") (some "d10")).isSome
      = hasIdAtDepthLE "d10" MAX_NESTING_DEPTH 0 chainPost10.comments :=
  addComment_parent_depth_bound.1 chainPost10
    (newComment "c1" "hi" "bob" (some "d10") "t0") "d10" (by decide)

/-- Count bookkeeping for runComments: the final commentCount is the starting
one plus the number of successful insertions. -/
theorem runComments_commentCount (reqs : List (Comment × Option String)) :
    ∀ (p : Post), (runComments p reqs).1.commentCount
      = p.commentCount + ((runComments p reqs).2 : Int) := by
  induction reqs with
  | nil => intro p; simp [runComments]
  | cons r rest ih =>
    intro p
    obtain ⟨c, pid⟩ := r
    cases hq : addComment p c pid with
    | none => simp [runComments, hq, ih p]
    | some q =>
      have hcount : q.commentCount = p.commentCount + 1 := by
        revert hq
        unfold addComment
        by_cases ht : strTruthy pid
        · simp only [ht, if_true]
          cases addReply (pid.getD "") c 0 p.comments with
          | none => intro hq; cases hq
          | some forest => intro hq; cases hq; rfl
        · simp only [ht, if_false]
          intro hq; cases hq; rfl
      simp [runComments, hq, ih q, hcount]
      ring

/-- CLAIM C5: every successful insertion increments commentCount by exactly
one, a failed insertion leaves the stored post unchanged, and on a fresh post
the commentCount after any request sequence equals the number of successful
insertions. -/
theorem commentCount_counts_successes :
    (∀ (p : Post) (c : Comment) (pid : Option String) (q : Post),
        addComment p c pid = some q → q.commentCount = p.commentCount + 1)
    ∧ (∀ (p : Post) (c : Comment) (pid : Option String),
        addComment p c pid = none → addCommentResult p c pid = p)
    ∧ (∀ (id slug title content author community : String) (t : Int)
          (reqs : List (Comment × Option String)),
        (runComments (freshPost id slug title content author community t) reqs).1.commentCount
          = ((runComments (freshPost id slug title content author community t) reqs).2 : Int)) := by
  refine ⟨?_, ?_, ?_⟩
  · intro p c pid q hq
    revert hq
    unfold addComment
    by_cases ht : strTruthy pid
    · simp only [ht, if_true]
      cases hr : addReply (pid.getD "") c 0 p.comments with
      | none => intro hq; cases hq
      | some forest => intro hq; cases hq; rfl
    · simp only [ht, if_false]
      intro hq; cases hq; rfl
  · intro p c pid hq
    simp [addCommentResult, hq]
  · intro id slug title content author community t reqs
    have h := runComments_commentCount reqs (freshPost id slug title content author community t)
    simpa [freshPost] using h

/-- Witness for C5 at concrete inputs: a successful top-level insertion on the
fresh post increments commentCount to 1, and a failed insertion under the
missing parent id "zz" leaves the stored post unchanged. -/
theorem commentCount_counts_successes_witness :
    ((addComment (freshPost "p1" "s" "t" "" "alice" "gaming" 0)
        (newComment "c1" "hi" "bob" none "t0") none).map Post.commentCount = some 1)
    ∧ addCommentResult (freshPost "p1" "s" "t" "" "alice" "gaming" 0)
        (newComment "c1" "hi" "bob" (some "zz") "t0") (some "zz")
        = freshPost "p1" "s" "t" "" "alice" "gaming" 0 := by
  constructor
  · have hq : addComment (freshPost "p1" "s" "t" "" "alice" "gaming" 0)
        (newComment "c1" "hi" "bob" none "t0") none
        = some { freshPost "p1" "s" "t" "" "alice" "gaming" 0 with
            comments := [newComment "c1" "hi" "bob" none "t0"],
            commentCount := (freshPost "p1" "s" "t" "" "alice" "gaming" 0).commentCount + 1 } := rfl
    have h2 := commentCount_counts_successes.1
      (freshPost "p1" "s" "t" "" "alice" "gaming" 0)
      (newComment "c1" "hi" "bob" none "t0") none _ hq
    rw [hq]
    simp [h2, freshPost]
  · have hnone : addComment (freshPost "p1" "s" "t" "" "alice" "gaming" 0)
        (newComment "c1" "hi" "bob" (some "zz") "t0") (some "zz") = none := by
      simp [addComment, strTruthy, addReply, freshPost]
    exact commentCount_counts_successes.2.1
      (freshPost "p1" "s" "t" "" "alice" "gaming" 0)
      (newComment "c1" "hi" "bob" (some "zz") "t0") (some "zz") hnone

/-! ## Index document and self-heal (getIndex)

index.json holds version, lastUpdated and the users, communities and posts
maps. getFileFromGitHub returns null on 404 and returns content {} with the
sha when the file is empty or unparseable; getIndex rebuilds and saves a
fresh index when the content is null or has no keys, and otherwise fills in
any missing map in memory without saving. -/

structure UserRef where
  id : String
  file : String
  createdAt : String
  avatarUrl : String
deriving DecidableEq

structure CommunityRef where
  id : String
  file : String
  createdAt : String
  memberCount : Int
  iconUrl : String
deriving DecidableEq

structure PostRef where
  file : String
  community : String
  author : String
  createdAt : Int
  slug : String
deriving DecidableEq

/-- Parsed index.json content as stored: every field of the JSON object may
be absent. An empty or unparseable file parses to the all-none value. -/
structure RawIndex where
  version : Option String
  lastUpdated : Option String
  users : Option (List (String × UserRef))
  communities : Option (List (String × CommunityRef))
  posts : Option (List (String × PostRef))
deriving DecidableEq

/-- Emptiness test Object.keys(content).length === 0 on the parsed object. -/
def RawIndex.isEmptyObj (r : RawIndex) : Bool :=
  r.version.isNone && r.lastUpdated.isNone && r.users.isNone
    && r.communities.isNone && r.posts.isNone

/-- Index document as returned by getIndex: the three maps always present. -/
structure IndexDoc where
  version : Option String
  lastUpdated : Option String
  users : List (String × UserRef)
  communities : List (String × CommunityRef)
  posts : List (String × PostRef)
deriving DecidableEq

/-- Stored state of index.json: absent (404) or a parsed object with its
revision. -/
inductive IndexFile : Type where
  | absent : IndexFile
  | file (raw : RawIndex) (sha : String) : IndexFile
deriving DecidableEq

/-- Fresh index document built by getIndex when the stored one is missing or
empty: version 1.0.0, lastUpdated now, three empty maps. -/
def initialIndex (now : String) : IndexDoc :=
  { version := some "1.0.0", lastUpdated := some now,
    users := [], communities := [], posts := [] }

def rawOfDoc (d : IndexDoc) : RawIndex :=
  { version := d.version, lastUpdated := d.lastUpdated,
    users := some d.users, communities := some d.communities, posts := some d.posts }

structure GetIndexResult where
  content : IndexDoc
  sha : Option String
  store : IndexFile
  wrote : Bool
deriving DecidableEq

/-- getIndex: fetch index.json; when the result is null or its content has no
keys, build the initial index, save it (blind create when absent, overwrite
at the observed sha otherwise) and return it with sha null; otherwise ensure
the three maps exist in the returned content and return it without writing.
now is the current timestamp, newSha the revision the store would assign to a
write, store the stored state after the call, wrote whether a save ran. -/
def getIndex (now newSha : String) (st : IndexFile) : GetIndexResult :=
  match st with
  | .absent =>
    { content := initialIndex now, sha := none,
      store := .file (rawOfDoc (initialIndex now)) newSha, wrote := true }
  | .file raw sha =>
    if raw.isEmptyObj then
      { content := initialIndex now, sha := none,
        store := .file (rawOfDoc (initialIndex now)) newSha, wrote := true }
    else
      { content := { version := raw.version, lastUpdated := raw.lastUpdated,
                     users := raw.users.getD [], communities := raw.communities.getD [],
                     posts := raw.posts.getD [] },
        sha := some sha, store := st, wrote := false }

/-- Concrete user reference used in the C3 scenarios. -/
def aliceRef : UserRef :=
  { id := "u1", file := "users/alice.json", createdAt := "t0", avatarUrl := "" }

/-- Concrete stored index content that is non-empty (it has a users key) but
is missing the communities and posts maps. -/
def incompleteRaw : RawIndex :=
  { version := none, lastUpdated := none, users := some [("alice", aliceRef)],
    communities := none, posts := none }

/-- COUNTEREXAMPLE to CLAIM C3: a stored index that is non-empty but missing
the communities and posts maps is NOT replaced by a persisted fresh empty
IndexDoc: getIndex fills the missing maps in memory only, keeps the existing
users entries, performs no write, and leaves the stored file unchanged. -/
theorem getIndex_incomplete_not_persisted :
    (getIndex "t1" "s2" (IndexFile.file incompleteRaw "s1")).wrote = false
    ∧ (getIndex "t1" "s2" (IndexFile.file incompleteRaw "s1")).content
        ≠ initialIndex "t1"
    ∧ (getIndex "t1" "s2" (IndexFile.file incompleteRaw "s1")).store
        = IndexFile.file incompleteRaw "s1" := by
  decide

/-- CLAIM C3 (amended): when index.json is missing, or empty, or unparseable
(content with no keys), getIndex synthesizes the fresh empty IndexDoc,
persists it and returns it; when the stored content is non-empty but missing
some of the three maps, getIndex returns the document with the missing maps
filled by empty maps, preserving the present entries, and does not write; and
the self-heal is idempotent: on a store with no index.json two successive
loads return the same empty-but-valid index and the second performs no write
and cannot error. -/
theorem getIndex_self_heal :
    (∀ (now newSha : String),
      getIndex now newSha IndexFile.absent
        = { content := initialIndex now, sha := none,
            store := IndexFile.file (rawOfDoc (initialIndex now)) newSha, wrote := true })
    ∧ (∀ (now newSha sha : String) (raw : RawIndex), raw.isEmptyObj = true →
      getIndex now newSha (IndexFile.file raw sha)
        = { content := initialIndex now, sha := none,
            store := IndexFile.file (rawOfDoc (initialIndex now)) newSha, wrote := true })
    ∧ (∀ (now newSha sha : String) (raw : RawIndex), raw.isEmptyObj = false →
      (getIndex now newSha (IndexFile.file raw sha)).wrote = false
      ∧ (getIndex now newSha (IndexFile.file raw sha)).store = IndexFile.file raw sha
      ∧ (getIndex now newSha (IndexFile.file raw sha)).content.users = raw.users.getD []
      ∧ (getIndex now newSha (IndexFile.file raw sha)).content.communities
          = raw.communities.getD []
      ∧ (getIndex now newSha (IndexFile.file raw sha)).content.posts = raw.posts.getD [])
    ∧ (∀ (now1 s1 now2 s2 : String),
      (getIndex now2 s2 (getIndex now1 s1 IndexFile.absent).store).content
          = (getIndex now1 s1 IndexFile.absent).content
      ∧ (getIndex now2 s2 (getIndex now1 s1 IndexFile.absent).store).wrote = false) := by
  refine ⟨fun now newSha => rfl, ?_, ?_, ?_⟩
  · intro now newSha sha raw h
    simp [getIndex, h]
  · intro now newSha sha raw h
    simp [getIndex, h]
  · intro now1 s1 now2 s2
    constructor
    · simp [getIndex, rawOfDoc, RawIndex.isEmptyObj, initialIndex]
    · simp [getIndex, rawOfDoc, RawIndex.isEmptyObj, initialIndex]

/-- Witness for C3 at concrete inputs: the empty-content branch fires on the
all-none raw object, and the repair branch fires on a raw object missing two
maps. -/
theorem getIndex_self_heal_witness :
    (getIndex "t1" "s9" (IndexFile.file (RawIndex.mk none none none none none) "s0")
      = { content := initialIndex "t1", sha := none,
          store := IndexFile.file (rawOfDoc (initialIndex "t1")) "s9", wrote := true })
    ∧ (getIndex "t1" "s9"
        (IndexFile.file (RawIndex.mk (some "1.0.0") none none none none) "s0")).wrote
        = false :=
  ⟨getIndex_self_heal.2.1 "t1" "s9" "s0" (RawIndex.mk none none none none none) (by decide),
   (getIndex_self_heal.2.2.1 "t1" "s9" "s0"
      (RawIndex.mk (some "1.0.0") none none none none) (by decide)).1⟩

/-! ## Dual-path resolver (getDirectWithFallback) -/

/-- Generic JSON document viewed as an association list of string fields. -/
abbrev Doc := List (String × String)

/-- Result of getFileFromGitHub: none on 404, otherwise the parsed content
(an empty object when the file was empty or unparseable) with its sha. -/
abbrev Fetched := Option (Doc × String)

def DATA_PATH : String := "data"

/-- Canonical direct path for an entity type and key. -/
def directPath (ty id : String) : String :=
  DATA_PATH ++ "/" ++ ty ++ "/" ++ id ++ ".json"

/-- getDirectWithFallback: fetch the direct path; when it yields content with
at least one key return it; otherwise (404, empty content, parse failure)
return the result of the index-based fallback resolver. The store argument is
the fetch function of the blob store; the fallback value stands for the
awaited fallbackFn() result, none covering both a null return and a miss. -/
def getDirectWithFallback (store : String → Fetched) (ty id : String)
    (fallback : Fetched) : Fetched :=
  match store (directPath ty id) with
  | some (content, sha) => if content.isEmpty then fallback else some (content, sha)
  | none => fallback

/-- CLAIM C6: the resolver returns the direct-path document whenever that
fetch yields non-empty content; on any direct-path failure (missing, empty,
unparseable) it returns the fallback result; and it fails with NotFound
(none) exactly when both attempts fail. -/
theorem resolver_direct_then_fallback :
    ∀ (store : String → Fetched) (ty id : String) (fallback : Fetched),
      (∀ (content : Doc) (sha : String),
        store (directPath ty id) = some (content, sha) → content ≠ [] →
          getDirectWithFallback store ty id fallback = some (content, sha))
      ∧ ((store (directPath ty id) = none
            ∨ ∃ sha, store (directPath ty id) = some ([], sha)) →
          getDirectWithFallback store ty id fallback = fallback)
      ∧ (getDirectWithFallback store ty id fallback = none ↔
          ((store (directPath ty id) = none
              ∨ ∃ sha, store (directPath ty id) = some ([], sha))
            ∧ fallback = none)) := by
  intro store ty id fallback
  refine ⟨?_, ?_, ?_⟩
  · intro content sha h hne
    simp [getDirectWithFallback, h, hne]
  · intro h
    rcases h with h | ⟨sha, h⟩
    · simp [getDirectWithFallback, h]
    · simp [getDirectWithFallback, h]
  · cases h : store (directPath ty id) with
    | none => simp [getDirectWithFallback, h]
    | some cs =>
      obtain ⟨content, sha⟩ := cs
      cases content with
      | nil => simp [getDirectWithFallback, h]
      | cons kv rest => simp [getDirectWithFallback, h]

/-- Witness for C6 at a concrete input: a store holding a non-empty community
document at the direct path resolves to it, ignoring a different fallback. -/
theorem resolver_direct_then_fallback_witness :
    getDirectWithFallback
      (fun path => if path = directPath "communities" "gaming"
        then some ([("name", "gaming")], "s1") else none)
      "communities" "gaming" (some ([("name", "stale")], "s0"))
      = some ([("name", "gaming")], "s1") :=
  (resolver_direct_then_fallback
      (fun path => if path = directPath "communities" "gaming"
        then some ([("name", "gaming")], "s1") else none)
      "communities" "gaming" (some ([("name", "stale")], "s0"))).1
    [("name", "gaming")] "s1" (by simp) (by simp)

/-! ## Retention job (cleanupOldPosts)

cleanupOldPosts reads config.retentionDays and the index, collects the ids of
index-listed posts whose age exceeds the retention window and whose fetched
document has no comments (fetch failures are logged and skipped), then for at
most 5 of them deletes the post blob (deleteFileFromGitHub, a no-op when the
file or its sha is missing) and removes the index entry; community and user
files are deliberately not touched. -/

theorem lookupKey_mem {α : Type} (k : String) (l : List (String × α)) (v : α)
    (h : lookupKey k l = some v) : (k, v) ∈ l := by
  induction l with
  | nil => simp [lookupKey] at h
  | cons kv rest ih =>
    by_cases h1 : kv.1 = k
    · simp only [lookupKey, h1, if_true, Option.some.injEq] at h
      have hkv : (k, v) = kv := by
        calc (k, v) = (kv.1, kv.2) := by rw [h1, h]
          _ = kv := rfl
      rw [hkv]
      exact List.mem_cons_self kv rest
    · simp only [lookupKey, h1, if_false] at h
      exact List.mem_cons_of_mem _ (ih h)

theorem nodup_keys_mem_unique {α : Type} (l : List (String × α)) (k : String) (a b : α)
    (hnd : (l.map (fun kv => kv.1)).Nodup)
    (ha : (k, a) ∈ l) (hb : (k, b) ∈ l) : a = b := by
  have h := List.inj_on_of_nodup_map hnd ha hb rfl
  exact congrArg Prod.snd h

def retentionMs (retentionDays : Int) : Int :=
  retentionDays * 24 * 60 * 60 * 1000

/-- Full path of a post reference, DATA_PATH/meta.file. -/
def postPath (meta : PostRef) : String := DATA_PATH ++ "/" ++ meta.file

/-- Store state the retention job acts on: the posts map of the index, the
post blobs (absence covers both 404 and a failed fetch), and the community
and user blobs the job must not modify. -/
structure CleanupState where
  indexPosts : List (String × PostRef)
  postBlobs : List (String × Post)
  communityBlobs : List (String × Doc)
  userBlobs : List (String × Doc)

/-- Deletion-candidate test for one index entry: age strictly above the
retention window, and the fetched document exists and has no comments. -/
def isCandidate (now retentionDays : Int) (blobs : List (String × Post))
    (meta : PostRef) : Bool :=
  decide (now - meta.createdAt > retentionMs retentionDays) &&
    match lookupKey (postPath meta) blobs with
    | some post => post.comments.isEmpty
    | none => false

/-- Ids collected in the identification phase, in index order. -/
def postsToDelete (now retentionDays : Int) (st : CleanupState) : List String :=
  (st.indexPosts.filter (fun kv => isCandidate now retentionDays st.postBlobs kv.2)).map
    (fun kv => kv.1)

/-- deleteFileFromGitHub: fetch the file for its sha; when absent, return
without error; otherwise delete it. -/
def deleteFileFromGitHub (blobs : List (String × Post)) (path : String) :
    List (String × Post) :=
  match lookupKey path blobs with
  | none => blobs
  | some _ => eraseKey path blobs

/-- One step of the deletion loop: look the id up in the index, delete the
blob at its file path and remove the index entry; skip when absent. -/
def deleteOne (st : CleanupState) (pid : String) : CleanupState :=
  match lookupKey pid st.indexPosts with
  | some meta =>
    { st with postBlobs := deleteFileFromGitHub st.postBlobs (postPath meta),
              indexPosts := eraseKey pid st.indexPosts }
  | none => st

/-- cleanupOldPosts: identify candidates, then delete at most 5 of them. -/
def cleanupOldPosts (now retentionDays : Int) (st : CleanupState) : CleanupState :=
  ((postsToDelete now retentionDays st).take 5).foldl deleteOne st

theorem deleteOne_communityBlobs (st : CleanupState) (q : String) :
    (deleteOne st q).communityBlobs = st.communityBlobs := by
  unfold deleteOne
  cases lookupKey q st.indexPosts <;> rfl

theorem deleteOne_userBlobs (st : CleanupState) (q : String) :
    (deleteOne st q).userBlobs = st.userBlobs := by
  unfold deleteOne
  cases lookupKey q st.indexPosts <;> rfl

theorem foldl_deleteOne_communityBlobs (pids : List String) :
    ∀ (st : CleanupState),
      (pids.foldl deleteOne st).communityBlobs = st.communityBlobs := by
  induction pids with
  | nil => intro st; rfl
  | cons q qs ih =>
    intro st
    rw [List.foldl_cons, ih (deleteOne st q), deleteOne_communityBlobs]

theorem foldl_deleteOne_userBlobs (pids : List String) :
    ∀ (st : CleanupState),
      (pids.foldl deleteOne st).userBlobs = st.userBlobs := by
  induction pids with
  | nil => intro st; rfl
  | cons q qs ih =>
    intro st
    rw [List.foldl_cons, ih (deleteOne st q), deleteOne_userBlobs]

theorem deleteOne_index_mem (st : CleanupState) (q pid : String) (meta : PostRef) :
    (pid, meta) ∈ (deleteOne st q).indexPosts
      ↔ (pid, meta) ∈ st.indexPosts ∧ pid ≠ q := by
  unfold deleteOne
  cases hlk : lookupKey q st.indexPosts with
  | none =>
    simp only
    constructor
    · intro h
      refine ⟨h, ?_⟩
      intro hq
      subst hq
      obtain ⟨w, hw⟩ := lookupKey_of_mem pid st.indexPosts meta h
      rw [hw] at hlk
      cases hlk
    · intro h; exact h.1
  | some m =>
    simp only
    exact mem_eraseKey q (pid, meta) st.indexPosts

theorem foldl_deleteOne_index_mem (pids : List String) :
    ∀ (st : CleanupState) (pid : String) (meta : PostRef),
      (pid, meta) ∈ (pids.foldl deleteOne st).indexPosts
        ↔ (pid, meta) ∈ st.indexPosts ∧ pid ∉ pids := by
  induction pids with
  | nil => intro st pid meta; simp
  | cons q qs ih =>
    intro st pid meta
    rw [List.foldl_cons, ih (deleteOne st q) pid meta, deleteOne_index_mem]
    simp only [List.mem_cons]
    constructor
    · rintro ⟨⟨h1, h2⟩, h3⟩
      exact ⟨h1, by rintro (h | h) <;> [exact h2 h; exact h3 h]⟩
    · rintro ⟨h1, h2⟩
      exact ⟨⟨h1, fun h => h2 (Or.inl h)⟩, fun h => h2 (Or.inr h)⟩

theorem deleteOne_blob_preserved (st : CleanupState) (q : String) (path : String)
    (h : ∀ m : PostRef, lookupKey q st.indexPosts = some m → postPath m ≠ path) :
    lookupKey path (deleteOne st q).postBlobs = lookupKey path st.postBlobs := by
  unfold deleteOne
  cases hlk : lookupKey q st.indexPosts with
  | none => rfl
  | some m =>
    simp only
    unfold deleteFileFromGitHub
    cases hb : lookupKey (postPath m) st.postBlobs with
    | none => rfl
    | some _ =>
      simp only
      exact lookupKey_eraseKey_ne (postPath m) path st.postBlobs
        (fun hh => h m hlk hh.symm)

theorem foldl_deleteOne_blob_preserved (pids : List String) :
    ∀ (st : CleanupState) (path : String),
      (∀ (q : String) (m : PostRef), q ∈ pids → (q, m) ∈ st.indexPosts →
        postPath m ≠ path) →
      lookupKey path (pids.foldl deleteOne st).postBlobs
        = lookupKey path st.postBlobs := by
  induction pids with
  | nil => intro st path h; rfl
  | cons q qs ih =>
    intro st path h
    rw [List.foldl_cons]
    rw [ih (deleteOne st q) path ?hnext, deleteOne_blob_preserved st q path ?hq]
    case hq =>
      intro m hm
      exact h q m (List.mem_cons_self q qs) (lookupKey_mem q st.indexPosts m hm)
    case hnext =>
      intro r m hr hmem
      have hmem0 : (r, m) ∈ st.indexPosts := ((deleteOne_index_mem st q r m).mp hmem).1
      exact h r m (List.mem_cons_of_mem q hr) hmem0

theorem lookupKey_eraseKey_none {α : Type} (k path : String) (l : List (String × α))
    (h : lookupKey path l = none) : lookupKey path (eraseKey k l) = none := by
  by_cases hp : path = k
  · subst hp
    exact lookupKey_eraseKey_self path l
  · rw [lookupKey_eraseKey_ne k path l hp]
    exact h

theorem deleteOne_blob_none (st : CleanupState) (q path : String)
    (h : lookupKey path st.postBlobs = none) :
    lookupKey path (deleteOne st q).postBlobs = none := by
  unfold deleteOne
  cases lookupKey q st.indexPosts with
  | none => exact h
  | some m =>
    simp only
    unfold deleteFileFromGitHub
    cases lookupKey (postPath m) st.postBlobs with
    | none => exact h
    | some _ => exact lookupKey_eraseKey_none (postPath m) path st.postBlobs h

theorem foldl_deleteOne_blob_none (pids : List String) :
    ∀ (st : CleanupState) (path : String), lookupKey path st.postBlobs = none →
      lookupKey path (pids.foldl deleteOne st).postBlobs = none := by
  induction pids with
  | nil => intro st path h; exact h
  | cons q qs ih =>
    intro st path h
    rw [List.foldl_cons]
    exact ih (deleteOne st q) path (deleteOne_blob_none st q path h)

theorem deleteOne_keys_nodup (st : CleanupState) (q : String)
    (h : (st.indexPosts.map (fun kv => kv.1)).Nodup) :
    ((deleteOne st q).indexPosts.map (fun kv => kv.1)).Nodup := by
  unfold deleteOne
  cases lookupKey q st.indexPosts with
  | none => exact h
  | some m =>
    simp only
    have hs : List.Sublist ((eraseKey q st.indexPosts).map (fun kv => kv.1))
        (st.indexPosts.map (fun kv => kv.1)) :=
      (List.filter_sublist st.indexPosts).map (fun kv => kv.1)
    exact List.Nodup.sublist hs h

theorem deleteOne_blob_deleted (st : CleanupState) (pid : String) (meta : PostRef)
    (hkeys : (st.indexPosts.map (fun kv => kv.1)).Nodup)
    (hmem : (pid, meta) ∈ st.indexPosts) :
    lookupKey (postPath meta) (deleteOne st pid).postBlobs = none := by
  unfold deleteOne
  cases hlk : lookupKey pid st.indexPosts with
  | none =>
    obtain ⟨w, hw⟩ := lookupKey_of_mem pid st.indexPosts meta hmem
    rw [hw] at hlk
    cases hlk
  | some m =>
    have hm : m = meta :=
      nodup_keys_mem_unique st.indexPosts pid m meta hkeys
        (lookupKey_mem pid st.indexPosts m hlk) hmem
    subst hm
    simp only
    unfold deleteFileFromGitHub
    cases hb : lookupKey (postPath m) st.postBlobs with
    | none => exact hb
    | some _ => exact lookupKey_eraseKey_self (postPath m) st.postBlobs

theorem foldl_deleteOne_blob_deleted (pids : List String) :
    ∀ (st : CleanupState) (pid : String) (meta : PostRef),
      (st.indexPosts.map (fun kv => kv.1)).Nodup → pid ∈ pids →
      (pid, meta) ∈ st.indexPosts →
      lookupKey (postPath meta) (pids.foldl deleteOne st).postBlobs = none := by
  induction pids with
  | nil => intro st pid meta _ h _; cases h
  | cons q qs ih =>
    intro st pid meta hkeys hin hmem
    rw [List.foldl_cons]
    by_cases hpq : pid = q
    · subst hpq
      exact foldl_deleteOne_blob_none qs (deleteOne st pid) (postPath meta)
        (deleteOne_blob_deleted st pid meta hkeys hmem)
    · rcases List.mem_cons.mp hin with h | h
      · exact absurd h hpq
      · exact ih (deleteOne st q) pid meta (deleteOne_keys_nodup st q hkeys)
          h ((deleteOne_index_mem st q pid meta).mpr ⟨hmem, hpq⟩)

/-- Characterization of the candidate list in terms of the stored data. -/
theorem mem_postsToDelete_iff (now retentionDays : Int) (st : CleanupState)
    (pid : String) :
    pid ∈ postsToDelete now retentionDays st
      ↔ ∃ meta : PostRef, (pid, meta) ∈ st.indexPosts
          ∧ now - meta.createdAt > retentionMs retentionDays
          ∧ ∃ post : Post, lookupKey (postPath meta) st.postBlobs = some post
              ∧ post.comments = [] := by
  unfold postsToDelete
  simp only [List.mem_map, List.mem_filter]
  constructor
  · rintro ⟨⟨k, meta⟩, ⟨hmem, hcand⟩, hk⟩
    subst hk
    unfold isCandidate at hcand
    rw [Bool.and_eq_true] at hcand
    obtain ⟨hage, hcomments⟩ := hcand
    refine ⟨meta, hmem, of_decide_eq_true hage, ?_⟩
    cases hb : lookupKey (postPath meta) st.postBlobs with
    | none => rw [hb] at hcomments; cases hcomments
    | some post =>
      rw [hb] at hcomments
      simp only at hcomments
      exact ⟨post, rfl, List.isEmpty_iff.mp hcomments⟩
  · rintro ⟨meta, hmem, hage, post, hb, hcomm⟩
    refine ⟨(pid, meta), ⟨hmem, ?_⟩, rfl⟩
    unfold isCandidate
    rw [Bool.and_eq_true]
    refine ⟨decide_eq_true hage, ?_⟩
    rw [hb]
    simp [hcomm]

/-- CLAIM C7: in one invocation the retention job deletes at most 5 posts:
exactly the first batch of index-listed posts whose age strictly exceeds the
retention window and whose fetched comment forest is empty, removing both the
blob (final conjunct: the batch member's file is gone from the post blobs)
and the index entry; community and user blobs are untouched; an aged post
with at least one comment keeps its index entry and its blob (in a store with
unique post ids and unique file paths); an unfetchable candidate is skipped
without aborting the batch (it simply is not a candidate, the rest are
processed); and deleting an already-absent blob is a no-op, not an error. -/
theorem retention_cleanup (now retentionDays : Int) (st : CleanupState) :
    ((cleanupOldPosts now retentionDays st).communityBlobs = st.communityBlobs
      ∧ (cleanupOldPosts now retentionDays st).userBlobs = st.userBlobs)
    ∧ (∀ (pid : String) (meta : PostRef),
        (pid, meta) ∈ (cleanupOldPosts now retentionDays st).indexPosts
          ↔ (pid, meta) ∈ st.indexPosts
            ∧ pid ∉ (postsToDelete now retentionDays st).take 5)
    ∧ ((postsToDelete now retentionDays st).take 5).length ≤ 5
    ∧ (∀ pid : String, pid ∈ postsToDelete now retentionDays st
        ↔ ∃ meta : PostRef, (pid, meta) ∈ st.indexPosts
            ∧ now - meta.createdAt > retentionMs retentionDays
            ∧ ∃ post : Post, lookupKey (postPath meta) st.postBlobs = some post
                ∧ post.comments = [])
    ∧ (∀ (pid : String) (meta : PostRef) (post : Post),
        (st.indexPosts.map (fun kv => kv.1)).Nodup →
        (st.indexPosts.map (fun kv => postPath kv.2)).Nodup →
        (pid, meta) ∈ st.indexPosts →
        lookupKey (postPath meta) st.postBlobs = some post →
        post.comments ≠ [] →
        (pid, meta) ∈ (cleanupOldPosts now retentionDays st).indexPosts
          ∧ lookupKey (postPath meta) (cleanupOldPosts now retentionDays st).postBlobs
              = some post)
    ∧ (∀ (blobs : List (String × Post)) (path : String),
        lookupKey path blobs = none → deleteFileFromGitHub blobs path = blobs)
    ∧ (∀ (pid : String) (meta : PostRef),
        (st.indexPosts.map (fun kv => kv.1)).Nodup →
        pid ∈ (postsToDelete now retentionDays st).take 5 →
        (pid, meta) ∈ st.indexPosts →
        lookupKey (postPath meta) (cleanupOldPosts now retentionDays st).postBlobs
          = none) := by
  refine ⟨⟨foldl_deleteOne_communityBlobs _ st, foldl_deleteOne_userBlobs _ st⟩,
    ?_, List.length_take_le 5 _, mem_postsToDelete_iff now retentionDays st, ?_, ?_, ?_⟩
  · intro pid meta
    exact foldl_deleteOne_index_mem _ st pid meta
  · intro pid meta post hkeys hpaths hmem hblob hcomm
    have hnotcand : pid ∉ postsToDelete now retentionDays st := by
      intro hin
      obtain ⟨meta2, hmem2, hage2, post2, hb2, hc2⟩ :=
        (mem_postsToDelete_iff now retentionDays st pid).mp hin
      have hm2 : meta2 = meta :=
        nodup_keys_mem_unique st.indexPosts pid meta2 meta hkeys hmem2 hmem
      subst hm2
      rw [hblob] at hb2
      injection hb2 with hpp
      rw [← hpp] at hc2
      exact hcomm hc2
    have hnottake : pid ∉ (postsToDelete now retentionDays st).take 5 :=
      fun h => hnotcand (List.take_subset 5 _ h)
    constructor
    · exact (foldl_deleteOne_index_mem _ st pid meta).mpr ⟨hmem, hnottake⟩
    · have hpres : ∀ (q : String) (m : PostRef),
          q ∈ (postsToDelete now retentionDays st).take 5 →
          (q, m) ∈ st.indexPosts → postPath m ≠ postPath meta := by
        intro q m hq hqmem hpath
        have hqcand : q ∈ postsToDelete now retentionDays st := List.take_subset 5 _ hq
        have hqpid : q ≠ pid := fun hh => hnotcand (hh ▸ hqcand)
        have hentry : (q, m) = (pid, meta) :=
          List.inj_on_of_nodup_map hpaths hqmem hmem hpath
        exact hqpid (congrArg Prod.fst hentry)
      unfold cleanupOldPosts
      rw [foldl_deleteOne_blob_preserved _ st (postPath meta) hpres]
      exact hblob
  · intro blobs path h
    unfold deleteFileFromGitHub
    rw [h]
  · intro pid meta hkeys htake hmem
    unfold cleanupOldPosts
    exact foldl_deleteOne_blob_deleted _ st pid meta hkeys htake hmem

/-- Index entry of the 30-day-old post without comments. -/
def retMeta1 : PostRef :=
  { file := "posts/p1.json", community := "gaming", author := "alice",
    createdAt := 0, slug := "s1" }

/-- Index entry of the otherwise identical post with one comment. -/
def retMeta2 : PostRef :=
  { file := "posts/p2.json", community := "gaming", author := "alice",
    createdAt := 0, slug := "s2" }

/-- Stored 30-day-old post without comments. -/
def retPost1 : Post := freshPost "p1" "s1" "t1" "" "alice" "gaming" 0

/-- Stored 30-day-old post with one comment. -/
def retPost2 : Post :=
  { freshPost "p2" "s2" "t2" "" "alice" "gaming" 0 with
    comments := [newComment "c1" "hi" "bob" none "t0"], commentCount := 1 }

/-- Store with the two aged posts; the clock stands 30 days (in ms) after
their creation. -/
def retState : CleanupState :=
  { indexPosts := [("p1", retMeta1), ("p2", retMeta2)],
    postBlobs := [("data/posts/p1.json", retPost1), ("data/posts/p2.json", retPost2)],
    communityBlobs := [("data/communities/gaming.json", [("name", "gaming")])],
    userBlobs := [("data/users/alice.json", [("username", "alice")])] }

/-- Witness for C7 at the concrete store of the spec scenario (post 30 days
old, retentionDays 20): the commentless post is deleted from the index while
the commented one keeps its entry and its blob, and community and user blobs
are unchanged. -/
theorem retention_cleanup_witness :
    (("p1", retMeta1) ∉ (cleanupOldPosts 2592000000 20 retState).indexPosts
        ∧ lookupKey (postPath retMeta1)
            (cleanupOldPosts 2592000000 20 retState).postBlobs = none)
    ∧ (("p2", retMeta2) ∈ (cleanupOldPosts 2592000000 20 retState).indexPosts
        ∧ lookupKey (postPath retMeta2)
            (cleanupOldPosts 2592000000 20 retState).postBlobs = some retPost2)
    ∧ (cleanupOldPosts 2592000000 20 retState).communityBlobs
        = retState.communityBlobs
    ∧ (cleanupOldPosts 2592000000 20 retState).userBlobs = retState.userBlobs := by
  have W := retention_cleanup 2592000000 20 retState
  have htake : "p1" ∈ (postsToDelete 2592000000 20 retState).take 5 := by
    rw [show postsToDelete 2592000000 20 retState = ["p1"] from rfl]
    exact List.mem_cons_self "p1" []
  refine ⟨⟨?_, ?_⟩, ?_, W.1.1, W.1.2⟩
  · intro h
    exact ((W.2.1 "p1" retMeta1).mp h).2 htake
  · exact W.2.2.2.2.2.2 "p1" retMeta1 (by decide) htake (by decide)
  · exact W.2.2.2.2.1 "p2" retMeta2 retPost2 (by decide) (by decide)
      (by decide) rfl (by simp [retPost2])

/-! ## Compare-and-swap writes and PUT /api/r/:community

saveFileToGitHub passes the sha it was given to createOrUpdateFileContents;
GitHub accepts the update only when that sha matches the current revision of
the file and otherwise fails, which the route surfaces as an error response:
there is no reread or retry anywhere in the handler. The read phase and the
write phase of the handler are modelled separately so that another writer can
commit between them. -/

structure CommunityDoc where
  id : String
  name : String
  displayName : String
  description : String
  creator : String
  createdAt : String
  members : List String
  moderators : List String
  memberCount : Int
  posts : List String
  iconUrl : String
  bannerUrl : String
deriving DecidableEq

/-- Stored community file with its current revision token. -/
structure Cell where
  content : CommunityDoc
  rev : Nat
deriving DecidableEq

/-- saveFileToGitHub with an existing sha: compare-and-swap against the
current revision, conflict otherwise. -/
def saveWithSha (current : Cell) (data : CommunityDoc) (sha : Nat) :
    Except String Cell :=
  if sha = current.rev then .ok { content := data, rev := current.rev + 1 }
  else .error "Conflict"

/-- In-memory transformation of PUT /api/r/:community on the document it
read: overwrite bannerUrl, iconUrl, description when present in the body. -/
def applyCommunityUpdate (d : CommunityDoc)
    (bannerUrl iconUrl description : Option String) : CommunityDoc :=
  let d1 := match bannerUrl with
    | some b => { d with bannerUrl := b }
    | none => d
  let d2 := match iconUrl with
    | some i => { d1 with iconUrl := i }
    | none => d1
  match description with
  | some de => { d2 with description := de }
  | none => d2

/-- Moderator, creator or hardcoded admin check of the handler. -/
def canEditCommunity (d : CommunityDoc) (user : String) : Bool :=
  d.moderators.contains user || decide (d.creator = user) || decide (user = "timco")

/-- Write phase of PUT /api/r/:community: permission check on the document
obtained at read time, then a single compare-and-swap against the current
store with the sha obtained at read time. An error is surfaced directly. -/
def updateCommunityWrite (readDoc : CommunityDoc) (readSha : Nat) (user : String)
    (bannerUrl iconUrl description : Option String) (current : Cell) :
    Except String Cell :=
  if canEditCommunity readDoc user then
    saveWithSha current (applyCommunityUpdate readDoc bannerUrl iconUrl description)
      readSha
  else .error "Only moderators can edit community"

/-- Community document used in the C8 race scenario. -/
def gamingDoc : CommunityDoc :=
  { id := "c1", name := "gaming", displayName := "gaming", description := "",
    creator := "mod", createdAt := "t0", members := ["mod"],
    moderators := ["mod"], memberCount := 1, posts := [],
    iconUrl := "", bannerUrl := "" }

/-- COUNTEREXAMPLE to CLAIM C8: two writers read the same revision 0; writer A
commits a description first, moving the store to revision 1; writer B, holding
revision 0, then attempts its banner update and the handler surfaces Conflict
with the store unchanged — nothing rereads or retries, and the final stored
community does not contain the banner: B's update is lost instead of being
applied atop A's result. -/
theorem updateCommunity_conflict_not_retried :
    updateCommunityWrite gamingDoc 0 "mod" none none (some "A says hi")
        { content := gamingDoc, rev := 0 }
      = Except.ok
        { content := applyCommunityUpdate gamingDoc none none (some "A says hi"),
          rev := 1 }
    ∧ updateCommunityWrite gamingDoc 0 "mod" (some "bannerB") none none
        { content := applyCommunityUpdate gamingDoc none none (some "A says hi"),
          rev := 1 }
      = Except.error "Conflict"
    ∧ (applyCommunityUpdate gamingDoc none none (some "A says hi")).bannerUrl
      ≠ "bannerB" :=
  ⟨rfl, rfl, by decide⟩

/-- CLAIM C8 (amended): the write of updateCommunity is a single
compare-and-swap with the sha obtained at read time; when the stored revision
still matches, the transformed document is committed at the next revision;
when another writer has moved the revision since the read, the handler
surfaces the Conflict error directly to the caller — there is no reread,
no reapplication and no retry, so the losing writer's update is not applied. -/
theorem updateCommunity_single_cas (readDoc : CommunityDoc) (readSha : Nat)
    (user : String) (bannerUrl iconUrl description : Option String)
    (current : Cell) (hperm : canEditCommunity readDoc user = true) :
    (readSha = current.rev →
      updateCommunityWrite readDoc readSha user bannerUrl iconUrl description current
        = Except.ok
          { content := applyCommunityUpdate readDoc bannerUrl iconUrl description,
            rev := current.rev + 1 })
    ∧ (readSha ≠ current.rev →
      updateCommunityWrite readDoc readSha user bannerUrl iconUrl description current
        = Except.error "Conflict") := by
  constructor
  · intro h
    simp [updateCommunityWrite, hperm, saveWithSha, h]
  · intro h
    simp [updateCommunityWrite, hperm, saveWithSha, h]

/-- Witness for the amended C8 theorem at concrete inputs: the moderator
writer holding sha 0 succeeds against revision 0 and conflicts against
revision 1. -/
theorem updateCommunity_single_cas_witness :
    (updateCommunityWrite gamingDoc 0 "mod" (some "bannerB") none none
        { content := gamingDoc, rev := 0 }
      = Except.ok
        { content := applyCommunityUpdate gamingDoc (some "bannerB") none none,
          rev := 1 })
    ∧ (updateCommunityWrite gamingDoc 0 "mod" (some "bannerB") none none
        { content := gamingDoc, rev := 1 }
      = Except.error "Conflict") :=
  ⟨(updateCommunity_single_cas gamingDoc 0 "mod" (some "bannerB") none none
      { content := gamingDoc, rev := 0 } (by decide)).1 rfl,
   (updateCommunity_single_cas gamingDoc 0 "mod" (some "bannerB") none none
      { content := gamingDoc, rev := 1 } (by decide)).2 (by decide)⟩

/-! ## Profanity filter

The server rejects or hides profane names: hasProfanity lowercases the text
and checks whether any word of the BAD_WORDS list occurs as a substring. The
GET /api/r/:community route answers 404 for a profane community name before
any lookup; the DELETE route has no such check. Community creation checks the
raw name and then sanitizes it to lowercase [a-z0-9_]. -/

/-- Word list of the profanity filter, verbatim from the source. -/
def BAD_WORDS : List String :=
  ["fuck", "shit", "bitch", "asshole", "cunt", "nigger", "faggot", "whore", "slut",
   "bastard", "dick", "pussy", "cock", "suck", "porn", "xxx", "sex", "tit", "boob",
   "penis", "vagina", "damn", "hell", "piss", "crap", "dyke", "kike", "chink", "spic",
   "retard"]

/-- Does the needle occur at the start of the haystack? -/
def seqStarts : List Char → List Char → Bool
  | _, [] => true
  | [], _ :: _ => false
  | a :: hs, b :: ns => a = b && seqStarts hs ns

/-- Does the needle occur contiguously anywhere in the haystack? This is
String.prototype.includes on the underlying characters. -/
def seqHas : List Char → List Char → Bool
  | [], needle => seqStarts [] needle
  | a :: rest, needle => seqStarts (a :: rest) needle || seqHas rest needle

/-- hasProfanity: false on empty text (the falsy guard), otherwise true when
some bad word occurs in the lowercased text. -/
def hasProfanity (text : String) : Bool :=
  if text = "" then false
  else BAD_WORDS.any (fun word => seqHas (text.toList.map Char.toLower) word.toList)

/-- Community-name sanitization of POST /api/r:
name.toLowerCase().replace removing everything outside [a-z0-9_]. -/
def sanitizeCommunityName (name : String) : String :=
  String.mk ((name.toList.map Char.toLower).filter
    (fun c => ('a' ≤ c && c ≤ 'z') || ('0' ≤ c && c ≤ '9') || c = '_'))

/-! ## Community deletion (DELETE /api/r/:community)

The handler rejects every caller except the hardcoded superadmin, then
removes only the index entry of the community and saves the index; the
community file itself is never deleted, so the direct-path resolver still
finds it. The index read of the handler is modelled as the index field of the
store. -/

structure SiteStore where
  index : IndexDoc
  files : List (String × (Doc × String))

def deleteCommunityHandler (username community now : String) (st : SiteStore) :
    Except String SiteStore :=
  if username = "timco" then
    match lookupKey community st.index.communities with
    | none => Except.error "Community not found"
    | some _ => Except.ok
        { st with index := { st.index with
            communities := eraseKey community st.index.communities,
            lastUpdated := some now } }
  else Except.error "Permission denied. Only super admin can delete communities."

/-- GET /api/r/:community: a 404 for profane community names, then dual-path
resolution with the index fallback. -/
def getCommunityHandler (st : SiteStore) (community : String) : Fetched :=
  if hasProfanity community then none
  else
    getDirectWithFallback (fun path => lookupKey path st.files) "communities" community
      (match lookupKey community st.index.communities with
       | none => none
       | some ref => lookupKey (DATA_PATH ++ "/" ++ ref.file) st.files)

/-- Index reference of the profane-sanitized community. -/
def sexRef : CommunityRef :=
  { id := "c2", file := "communities/sex.json", createdAt := "t0",
    memberCount := 1, iconUrl := "" }

/-- Store holding the community whose sanitized name trips the profanity
filter: the raw creation name "S-E-X" passes the raw-name check (the hyphens
break the substring match) and sanitizes to "sex", which is stored and
indexed under that name. -/
def profaneStore : SiteStore :=
  { index :=
      { version := some "1.0.0", lastUpdated := some "t0",
        users := [], posts := [], communities := [("sex", sexRef)] },
    files := [("data/communities/sex.json", ([("name", "sex")], "s1"))] }

/-- Store after the superadmin deletion: only the index entry is gone. -/
def profaneStoreAfter : SiteStore :=
  { profaneStore with index :=
      { profaneStore.index with
        communities := eraseKey "sex" profaneStore.index.communities,
        lastUpdated := some "t1" } }

/-- COUNTEREXAMPLE to CLAIM C9: for the reachable community name "sex" (raw
creation name "S-E-X" passes the profanity check and sanitizes to "sex"), the
superadmin deletion succeeds and leaves the community file in place, yet the
subsequent getCommunity does NOT return the full community document: GET
/api/r/:community answers 404 for a profane name before any lookup. -/
theorem delete_profane_community_get_404 :
    hasProfanity "S-E-X" = false
    ∧ sanitizeCommunityName "S-E-X" = "sex"
    ∧ hasProfanity "sex" = true
    ∧ deleteCommunityHandler "timco" "sex" "t1" profaneStore
        = Except.ok profaneStoreAfter
    ∧ profaneStoreAfter.files = profaneStore.files
    ∧ lookupKey (directPath "communities" "sex") profaneStoreAfter.files
        = some ([("name", "sex")], "s1")
    ∧ getCommunityHandler profaneStoreAfter "sex" = none :=
  ⟨by decide, by decide, by decide, rfl, rfl, by decide, rfl⟩

/-- CLAIM C9 (amended): deleteCommunity succeeds only for the superadmin
username; on success it removes exactly the one communities entry of the
Index (users and posts maps and every other communities entry untouched) and
never deletes any file; and when the community name passes the profanity
filter, a subsequent getCommunity still returns the full community document
through the direct path (a profane-sanitized name is answered 404 by GET
before any lookup, both before and after the deletion). -/
theorem delete_community_only_unlinks (st : SiteStore) (community now : String)
    (ref : CommunityRef) (doc : Doc) (sha : String)
    (href : lookupKey community st.index.communities = some ref)
    (hdoc : lookupKey (directPath "communities" community) st.files = some (doc, sha))
    (hne : doc ≠ []) (hprof : hasProfanity community = false) :
    (∀ username : String, username ≠ "timco" →
      deleteCommunityHandler username community now st
        = Except.error "Permission denied. Only super admin can delete communities.")
    ∧ ∃ st' : SiteStore,
        deleteCommunityHandler "timco" community now st = Except.ok st'
        ∧ st'.files = st.files
        ∧ st'.index.users = st.index.users
        ∧ st'.index.posts = st.index.posts
        ∧ lookupKey community st'.index.communities = none
        ∧ (∀ other : String, other ≠ community →
            lookupKey other st'.index.communities
              = lookupKey other st.index.communities)
        ∧ getCommunityHandler st' community = some (doc, sha) := by
  constructor
  · intro username hu
    simp [deleteCommunityHandler, hu]
  · refine ⟨{ st with index := { st.index with
        communities := eraseKey community st.index.communities,
        lastUpdated := some now } }, ?_, rfl, rfl, rfl, ?_, ?_, ?_⟩
    · simp [deleteCommunityHandler, href]
    · exact lookupKey_eraseKey_self community st.index.communities
    · intro other ho
      exact lookupKey_eraseKey_ne community other st.index.communities ho
    · unfold getCommunityHandler
      rw [hprof]
      simp only [Bool.false_eq_true, if_false]
      unfold getDirectWithFallback
      rw [show (fun path => lookupKey path ({ st with index := { st.index with
          communities := eraseKey community st.index.communities,
          lastUpdated := some now } } : SiteStore).files) (directPath "communities" community)
          = lookupKey (directPath "communities" community) st.files from rfl]
      rw [hdoc]
      simp [List.isEmpty_iff, hne]

/-- Index reference of the community in the C9 witness store. -/
def gamingRef : CommunityRef :=
  { id := "c1", file := "communities/gaming.json", createdAt := "t0",
    memberCount := 1, iconUrl := "" }

/-- Concrete store for the C9 witness: one community in the index and its
document at the direct path. -/
def delStore : SiteStore :=
  { index :=
      { version := some "1.0.0", lastUpdated := some "t0",
        users := [], posts := [], communities := [("gaming", gamingRef)] },
    files := [("data/communities/gaming.json", ([("name", "gaming")], "s1"))] }

/-- Witness for C9 at the concrete store. -/
theorem delete_community_only_unlinks_witness :
    (∀ username : String, username ≠ "timco" →
      deleteCommunityHandler username "gaming" "t1" delStore
        = Except.error "Permission denied. Only super admin can delete communities.")
    ∧ ∃ st' : SiteStore,
        deleteCommunityHandler "timco" "gaming" "t1" delStore = Except.ok st'
        ∧ st'.files = delStore.files
        ∧ st'.index.users = delStore.index.users
        ∧ st'.index.posts = delStore.index.posts
        ∧ lookupKey "gaming" st'.index.communities = none
        ∧ (∀ other : String, other ≠ "gaming" →
            lookupKey other st'.index.communities
              = lookupKey other delStore.index.communities)
        ∧ getCommunityHandler st' "gaming" = some ([("name", "gaming")], "s1") :=
  delete_community_only_unlinks delStore "gaming" "t1" gamingRef
    [("name", "gaming")] "s1" (by decide) (by decide) (by decide) (by decide)

/-! ## Password stripping in user responses

Each user route answers with `const (password: _, ...safeUser) = userData`
(rest destructuring) applied to the stored or freshly built user document,
which removes exactly the password key. User documents are flattened to
association lists of string fields here; list-valued fields appear as opaque
strings, which does not affect key removal. -/

/-- Rest destructuring that drops the password field. -/
def stripPassword (doc : Doc) : Doc := eraseKey "password" doc

/-- User document built by POST /api/auth/register before saving. -/
def registerUserData (userId username email hashedPassword createdAt : String) : Doc :=
  [("id", userId), ("username", username), ("email", email),
   ("password", hashedPassword), ("createdAt", createdAt), ("karma", "0"),
   ("posts", "[]"), ("comments", "[]"), ("communities", "[]"), ("avatarUrl", "")]

/-- Response body of POST /api/auth/register. -/
def registerResponse (userId username email hashedPassword createdAt : String) : Doc :=
  stripPassword (registerUserData userId username email hashedPassword createdAt)

/-- Response body of POST /api/auth/login for the stored user document. -/
def loginResponse (stored : Doc) : Doc := stripPassword stored

/-- Response body of GET /api/u/:username: the stripped document with the
posts and comments fields replaced by their populated versions. -/
def getUserResponse (stored : Doc) (populatedPosts populatedComments : String) : Doc :=
  setKey "comments" populatedComments
    (setKey "posts" populatedPosts (stripPassword stored))

/-- Profile mutation of PUT /api/u/:username on the stored document. -/
def applyProfileUpdate (stored : Doc) (avatarUrl about : Option String) : Doc :=
  let d1 := match avatarUrl with
    | some a => setKey "avatarUrl" a stored
    | none => stored
  match about with
  | some ab => setKey "about" ab d1
  | none => d1

/-- Response body of PUT /api/u/:username. -/
def updateProfileResponse (stored : Doc) (avatarUrl about : Option String) : Doc :=
  stripPassword (applyProfileUpdate stored avatarUrl about)

/-- CLAIM C10: register, login, getUser and updateUserProfile all strip the
password field before responding: the password key is absent from every
successful response document, for every stored user document and every
input. -/
theorem user_responses_strip_password :
    (∀ userId username email hashedPassword createdAt : String,
      lookupKey "password"
        (registerResponse userId username email hashedPassword createdAt) = none)
    ∧ (∀ stored : Doc, lookupKey "password" (loginResponse stored) = none)
    ∧ (∀ (stored : Doc) (populatedPosts populatedComments : String),
      lookupKey "password"
        (getUserResponse stored populatedPosts populatedComments) = none)
    ∧ (∀ (stored : Doc) (avatarUrl about : Option String),
      lookupKey "password" (updateProfileResponse stored avatarUrl about) = none) := by
  refine ⟨?_, ?_, ?_, ?_⟩
  · intro userId username email hashedPassword createdAt
    exact lookupKey_eraseKey_self "password" _
  · intro stored
    exact lookupKey_eraseKey_self "password" stored
  · intro stored populatedPosts populatedComments
    unfold getUserResponse
    rw [lookupKey_setKey_ne "comments" "password" _ _ (by decide)]
    rw [lookupKey_setKey_ne "posts" "password" _ _ (by decide)]
    exact lookupKey_eraseKey_self "password" stored
  · intro stored avatarUrl about
    exact lookupKey_eraseKey_self "password" _

end UniPost
